import Mathlib

/-!
# Verification of the token-limit core

A shallow embedding of the limit-parsing, cost-calculation, token-counting
dispatch and check-running logic of the `token-limit` repository
(`src/core/parse-limits.ts`, `src/core/count-tokens.ts`,
`src/core/get-model-config.ts`, `src/data/index.ts`, and the `runChecks`
orchestrator), together with theorems settling the specification claims.

Modelling conventions:
* JavaScript strings are `List Char` (`JSString`); `toLowerCase`, `trim`,
  `includes`, `startsWith` and the anchored regular expressions of the
  source are modelled as executable functions on character lists.  A
  matched numeric literal `\d+(\.\d+)?` is kept as its digit syntax
  (`DecLit`); `Number.parseFloat` on such a literal is the exact rational
  `DecLit.val`.
* JavaScript numbers are modelled as `JSNum`: an exact rational together
  with the non-finite values `NaN` and `±Infinity`.  The arithmetic the
  source performs on limit values (multiplication by a power of ten,
  `Math.floor`, division by 100 or 1000, price multiplication) is modelled
  exactly over `ℚ`; every value reaching `Math.floor` in the source is
  non-negative, so `Math.floor` is `Nat.floor`.
* Fallible code (`throw new Error(...)`) is modelled with `Except`; the
  distinct error messages of the source become the constructors of
  `LimitErr`.
* External effectful collaborators (the tiktoken encoder, the Anthropic
  local tokenizer and API client, the file-content provider) are oracle
  parameters; token-counting functions additionally return the list of
  tokenizer invocations they performed, so that "the tokenizer is not
  invoked" is a provable statement.
-/

namespace TokenLimit

/-- JavaScript strings, modelled as lists of characters. -/
abbrev JSString := List Char

/-- Whitespace for the purposes of `String.prototype.trim` and the regex
class `\s` (ASCII subset; the source only ever meets ASCII input). -/
def jsIsSpace (c : Char) : Bool :=
  c = ' ' || c = '\t' || c = '\n' || c = '\r' || c = '\x0b' || c = '\x0c'

/-- `String.prototype.toLowerCase` (ASCII). -/
def toLowerCase (s : JSString) : JSString := s.map Char.toLower

/-- `String.prototype.trim`. -/
def jsTrim (s : JSString) : JSString :=
  ((s.dropWhile jsIsSpace).reverse.dropWhile jsIsSpace).reverse

/-- `limit.toLowerCase().trim()`, the normalization used throughout
`parse-limits.ts` and `count-tokens.ts`. -/
def normalize (s : JSString) : JSString := jsTrim (toLowerCase s)

/-- `String.prototype.includes` for a single character. -/
def listContains (s : JSString) (c : Char) : Bool := s.any (fun d => d = c)

/-- `startsW s p`: the string `s` starts with `p`
(`s.startsWith(p)` in JavaScript). -/
def startsW : JSString → JSString → Bool
  | _, [] => true
  | [], _ :: _ => false
  | c :: cs, p :: ps => c = p && startsW cs ps

/-- `String.prototype.includes` for a multi-character pattern. -/
def containsSeq (pat : JSString) : JSString → Bool
  | [] => startsW [] pat
  | c :: cs => startsW (c :: cs) pat || containsSeq pat cs

/-- JavaScript numbers: an exact rational or one of the non-finite values. -/
inductive JSNum where
  | finite (q : ℚ)
  | nan
  | posInf
  | negInf
deriving DecidableEq, Repr

/-- `Number.isFinite`. -/
def JSNum.isFinite : JSNum → Bool
  | .finite _ => true
  | _ => false

/-- The distinct `throw new Error(...)` sites of `parse-limits.ts`, with
their interpolated payloads.  `invalidTokenLimitNumber n` stands for the
message `Invalid token limit: ${n}. Must be a positive finite number.`;
`invalidTokenLimitFormat s` for `Invalid token limit format: "${s}". ...`;
similarly for the two cost-limit errors. -/
inductive LimitErr where
  | invalidTokenLimitNumber (n : JSNum)
  | invalidTokenLimitFormat (s : JSString)
  | invalidCostLimitNumber (n : JSNum)
  | invalidCostLimitFormat (s : JSString)
deriving DecidableEq, Repr

/-! ## Numeric literals: the regex fragment `\d+(\.\d+)?`

All five cost patterns and the token-limit pattern share this fragment.
Because every character that may legally follow the fragment in those
anchored patterns (whitespace, a suffix letter, the end of input) is not a
digit and not a dot, the greedy deterministic parse below coincides with
the backtracking regex semantics. -/

/-- Numeric value of a digit string (most significant first). -/
def natOfDigits (ds : List Char) : ℕ :=
  ds.foldl (fun a c => 10 * a + (c.toNat - '0'.toNat)) 0

/-- The digit syntax of a matched literal `\d+(\.\d+)?`: the digits before
the dot and (possibly empty) after it. -/
structure DecLit where
  intDigits : List Char
  fracDigits : List Char
deriving DecidableEq, Repr

/-- `Number.parseFloat` on a matched literal, exactly. -/
def DecLit.val (l : DecLit) : ℚ :=
  (natOfDigits l.intDigits : ℚ) +
    (natOfDigits l.fracDigits : ℚ) / 10 ^ l.fracDigits.length

/-- Match `\d+(\.\d+)?` at the front of `s`; on success return the matched
literal and the unconsumed remainder. -/
def numLit (s : JSString) : Option (DecLit × JSString) :=
  let ds := s.takeWhile Char.isDigit
  let rest := s.dropWhile Char.isDigit
  if ds.isEmpty then none
  else
    match rest with
    | '.' :: rest2 =>
      let fs := rest2.takeWhile Char.isDigit
      let rest3 := rest2.dropWhile Char.isDigit
      if fs.isEmpty then none else some (⟨ds, fs⟩, rest3)
    | _ => some (⟨ds, []⟩, rest)

/-! ## The token-limit grammar of `parseTokenLimit` -/

/-- The magnitude suffixes of the pattern `^(\d+(\.\d+)?)\s*([bgkmt]?)$`;
`one` is the empty suffix. -/
inductive Mag where
  | one | k | m | b | g | t
deriving DecidableEq, Repr

/-- The multiplier of each suffix, from the `switch` in `parseTokenLimit`. -/
def Mag.mult : Mag → ℚ
  | .one => 1
  | .k => 1000
  | .m => 1000000
  | .b => 1000000000
  | .g => 1000000000
  | .t => 1000000000000

/-- The character class `[bgkmt]`. -/
def magOf (c : Char) : Option Mag :=
  if c = 'b' then some .b
  else if c = 'g' then some .g
  else if c = 'k' then some .k
  else if c = 'm' then some .m
  else if c = 't' then some .t
  else none

/-- Match the anchored pattern `^(?<value>\d+(?:\.\d+)?)\s*(?<suffix>[bgkmt]?)$`
of `parseTokenLimit` against the (already normalized) string. -/
def tokenLimitMatch (s : JSString) : Option (DecLit × Mag) :=
  match numLit s with
  | none => none
  | some (v, rest) =>
    match rest.dropWhile jsIsSpace with
    | [] => some (v, .one)
    | [c] => (magOf c).map (fun mg => (v, mg))
    | _ :: _ :: _ => none

/-! ## The registry of `open-router-models`

`parse-limits.ts` imports `openRouterModels` from `../data/open-router-models`,
keyed by model name, with numeric `contextWindow` and `costPer1kTokens`
fields (`src/types/model-router-data.ts`).  The data file itself is not part
of the provided sources, so the functions below are parametrized by an
abstract registry. -/

/-- The two fields of a registry entry that `parse-limits.ts` reads. -/
structure ModelRouterData where
  contextWindow : ℕ
  costPer1kTokens : ℚ
deriving DecidableEq, Repr

/-- The `openRouterModels` map: an exact-key lookup from model name. -/
abbrev Registry := String → Option ModelRouterData

/-- The guard `if (currentModel?.contextWindow)` of `parseTokenLimit`:
the entry must exist and its context window must be truthy (non-zero). -/
def lookupContextWindow (reg : Registry) (model : String) : Option ℕ :=
  match reg model with
  | some cm => if cm.contextWindow ≠ 0 then some cm.contextWindow else none
  | none => none

/-- A `string | number` value (the scalar shapes a limit field can take). -/
inductive StrOrNum where
  | str (s : JSString)
  | num (n : JSNum)
deriving DecidableEq, Repr

/-- `parseTokenLimit(limit, model)` from `src/core/parse-limits.ts`
(lines 122-169).  For a number: reject non-finite or negative values, else
`Math.floor`.  For a string: normalize; if the *model argument* is
registered with a truthy context window, return that context window;
otherwise match the numeric-suffix pattern and floor `value * multiplier`;
otherwise throw. -/
def parseTokenLimit (reg : Registry) (limit : StrOrNum) (model : String) :
    Except LimitErr ℕ :=
  match limit with
  | .num n =>
    match n with
    | .finite q => if q < 0 then .error (.invalidTokenLimitNumber n) else .ok ⌊q⌋₊
    | _ => .error (.invalidTokenLimitNumber n)
  | .str s =>
    let normalizedLimit := normalize s
    match lookupContextWindow reg model with
    | some w => .ok w
    | none =>
      match tokenLimitMatch normalizedLimit with
      | some (v, mg) => .ok ⌊v.val * mg.mult⌋₊
      | none => .error (.invalidTokenLimitFormat s)

/-! ## The cost-limit grammar of `parseCostLimit` -/

/-- Pattern `^\$(?<amount>\d+(?:\.\d+)?)$`. -/
def costPatDollarSign (s : JSString) : Option DecLit :=
  match s with
  | c :: rest =>
    if c = '$' then
      match numLit rest with
      | some (v, r) => if r = [] then some v else none
      | none => none
    else none
  | [] => none

/-- Pattern `^(?<amount>\d+(?:\.\d+)?)c$`. -/
def costPatCentsSuffix (s : JSString) : Option DecLit :=
  match numLit s with
  | some (v, r) => if r = ['c'] then some v else none
  | none => none

/-- Pattern `^(?<amount>\d+(?:\.\d+)?)\s+cents?$`. -/
def costPatCentsWord (s : JSString) : Option DecLit :=
  match numLit s with
  | some (v, rest) =>
    if (rest.takeWhile jsIsSpace).isEmpty then none
    else if rest.dropWhile jsIsSpace = "cent".toList ∨
        rest.dropWhile jsIsSpace = "cents".toList then some v
    else none
  | none => none

/-- Pattern `^(?<amount>\d+(?:\.\d+)?)\s+dollars?$`. -/
def costPatDollarWord (s : JSString) : Option DecLit :=
  match numLit s with
  | some (v, rest) =>
    if (rest.takeWhile jsIsSpace).isEmpty then none
    else if rest.dropWhile jsIsSpace = "dollar".toList ∨
        rest.dropWhile jsIsSpace = "dollars".toList then some v
    else none
  | none => none

/-- Pattern `^(?<amount>\d+(?:\.\d+)?)$` (plain number as string). -/
def costPatBare (s : JSString) : Option DecLit :=
  match numLit s with
  | some (v, r) => if r = [] then some v else none
  | none => none

/-- The `for (let pattern of patterns)` loop of `parseCostLimit`: the first
pattern that matches wins. -/
def costFirstMatch (s : JSString) : Option DecLit :=
  match costPatDollarSign s with
  | some v => some v
  | none =>
    match costPatCentsSuffix s with
    | some v => some v
    | none =>
      match costPatCentsWord s with
      | some v => some v
      | none =>
        match costPatDollarWord s with
        | some v => some v
        | none => costPatBare s

/-- The string case of `parseCostLimit(cost)` (lines 188-218): normalize,
take the first matching pattern, and divide the amount by 100 when the
normalized string contains the letter `c` or the substring `cent`; throw
when no pattern matches. -/
def parseCostLimitStr (cost : JSString) : Except LimitErr ℚ :=
  let normalizedCost := normalize cost
  match costFirstMatch normalizedCost with
  | some v =>
    if listContains normalizedCost 'c' || containsSeq "cent".toList normalizedCost then
      .ok (v.val / 100)
    else .ok v.val
  | none => .error (.invalidCostLimitFormat cost)

/-- `parseCostLimit(cost)` from `src/core/parse-limits.ts` (lines 178-219). -/
def parseCostLimit (cost : StrOrNum) : Except LimitErr ℚ :=
  match cost with
  | .num n =>
    match n with
    | .finite q => if q < 0 then .error (.invalidCostLimitNumber n) else .ok q
    | _ => .error (.invalidCostLimitNumber n)
  | .str s => parseCostLimitStr s

/-! ## `parseLimit` and `calculateCost` -/

/-- A limit expression before parsing: a bare number, a bare string, or an
object with optional `tokens` and `cost` fields (`'tokens' in limit` is
`(tokens?).isSome`). -/
inductive LimitExpr where
  | str (s : JSString)
  | num (n : JSNum)
  | obj (tokens? : Option StrOrNum) (cost? : Option StrOrNum)
deriving DecidableEq, Repr

/-- The normalized `ParsedLimit` record. -/
structure ParsedLimit where
  tokens : Option ℕ
  cost : Option ℚ
deriving DecidableEq, Repr

/-- The classification test in `parseLimit` (lines 32-37):
`normalizedLimit.includes('$') || normalizedLimit.includes('c') ||
normalizedLimit.includes('cent') || normalizedLimit.includes('dollar')`. -/
def isCostClassified (normalizedLimit : JSString) : Bool :=
  listContains normalizedLimit '$' || listContains normalizedLimit 'c' ||
    containsSeq "cent".toList normalizedLimit ||
    containsSeq "dollar".toList normalizedLimit

/-- `parseLimit(limit, model)` from `src/core/parse-limits.ts`
(lines 25-60). -/
def parseLimit (reg : Registry) (limit : LimitExpr) (model : String) :
    Except LimitErr ParsedLimit :=
  match limit with
  | .str s =>
    if isCostClassified (normalize s) then
      (parseCostLimitStr s).map (fun c => { tokens := none, cost := some c })
    else
      (parseTokenLimit reg (.str s) model).map (fun t => { tokens := some t, cost := none })
  | .num n =>
    (parseTokenLimit reg (.num n) model).map (fun t => { tokens := some t, cost := none })
  | .obj tokens? cost? => do
    let tk : Option ℕ ←
      match tokens? with
      | some v => (parseTokenLimit reg v model).map some
      | none => .ok none
    let ct : Option ℚ ←
      match cost? with
      | some v => (parseCostLimit v).map some
      | none => .ok none
    .ok { tokens := tk, cost := ct }

/-- `calculateCost(tokens, model)` from `src/core/parse-limits.ts`
(lines 69-82): zero when the model is unknown or its price is falsy,
otherwise `(tokens / 1000) * costPer1k`. -/
def calculateCost (reg : Registry) (tokens : ℚ) (model : String) : ℚ :=
  let costPer1k : ℚ :=
    match reg model with
    | some cm => cm.costPer1kTokens
    | none => 0
  if costPer1k = 0 then 0
  else (tokens / 1000) * costPer1k

/-! ## Evaluation lemmas

The suffix multipliers are powers of ten, so flooring `value * multiplier`
reduces to natural-number arithmetic on the digit strings; this is what
lets concrete runs of the parser be settled by `decide`. -/

/-- The exponent of each multiplier. -/
def Mag.pow : Mag → ℕ
  | .one => 0
  | .k => 3
  | .m => 6
  | .b => 9
  | .g => 9
  | .t => 12

theorem Mag.mult_eq_pow (mg : Mag) : mg.mult = (10 : ℚ) ^ mg.pow := by
  cases mg <;> norm_num [Mag.mult, Mag.pow]

/-- Flooring a decimal literal scaled by a power of ten, in `ℕ`. -/
def DecLit.scaledFloor (l : DecLit) (p : ℕ) : ℕ :=
  natOfDigits l.intDigits * 10 ^ p +
    natOfDigits l.fracDigits * 10 ^ p / 10 ^ l.fracDigits.length

theorem DecLit.floor_val_mul_pow (l : DecLit) (p : ℕ) :
    ⌊l.val * (10 : ℚ) ^ p⌋₊ = l.scaledFloor p := by
  obtain ⟨ds, fs⟩ := l
  show ⌊((natOfDigits ds : ℚ) + (natOfDigits fs : ℚ) / 10 ^ fs.length) * 10 ^ p⌋₊ = _
  have h1 : ((natOfDigits ds : ℚ) + (natOfDigits fs : ℚ) / 10 ^ fs.length) * 10 ^ p
      = ((natOfDigits fs * 10 ^ p : ℕ) : ℚ) / ((10 ^ fs.length : ℕ) : ℚ)
        + ((natOfDigits ds * 10 ^ p : ℕ) : ℚ) := by
    push_cast
    ring
  rw [h1, Nat.floor_add_nat (by positivity), Nat.floor_div_nat, Nat.floor_natCast]
  simp [DecLit.scaledFloor, Nat.add_comm]

theorem floor_val_mult (l : DecLit) (mg : Mag) :
    ⌊l.val * mg.mult⌋₊ = l.scaledFloor mg.pow := by
  rw [Mag.mult_eq_pow, DecLit.floor_val_mul_pow]

instance {ε α : Type} [DecidableEq ε] [DecidableEq α] : DecidableEq (Except ε α) := fun x y =>
  match x, y with
  | .ok a, .ok b => if h : a = b then .isTrue (by rw [h]) else .isFalse (by simp [h])
  | .error a, .error b => if h : a = b then .isTrue (by rw [h]) else .isFalse (by simp [h])
  | .ok _, .error _ => .isFalse (by simp)
  | .error _, .ok _ => .isFalse (by simp)

/-- Evaluation helper: a token-classified string limit that matches the
numeric-suffix pattern, with no context window for the model argument. -/
theorem parseLimit_str_token_eval (reg : Registry) (s : JSString) (model : String)
    (lit : DecLit) (mg : Mag)
    (hc : isCostClassified (normalize s) = false)
    (hw : lookupContextWindow reg model = none)
    (hm : tokenLimitMatch (normalize s) = some (lit, mg)) :
    parseLimit reg (.str s) model = .ok ⟨some (lit.scaledFloor mg.pow), none⟩ := by
  simp [parseLimit, hc, parseTokenLimit, hw, hm, floor_val_mult, Except.map]

/-- Evaluation helper: a matched cost string that takes the cents branch. -/
theorem parseCostLimitStr_eval_cents (s : JSString) (lit : DecLit)
    (hm : costFirstMatch (normalize s) = some lit)
    (hc : (listContains (normalize s) 'c' || containsSeq "cent".toList (normalize s)) = true) :
    parseCostLimitStr s = .ok (lit.val / 100) := by
  simp only [parseCostLimitStr, hm]
  rw [if_pos]
  exact hc

/-- Evaluation helper: a matched cost string that takes the plain branch. -/
theorem parseCostLimitStr_eval_plain (s : JSString) (lit : DecLit)
    (hm : costFirstMatch (normalize s) = some lit)
    (hc : (listContains (normalize s) 'c' || containsSeq "cent".toList (normalize s)) = false) :
    parseCostLimitStr s = .ok lit.val := by
  simp only [parseCostLimitStr, hm, hc, Bool.false_eq_true, if_false]

/-! ## The supported-models registry of `src/data/index.ts`

Pure data: provider → model name → config, in source insertion order
(the iteration order of `Object.entries`/`Object.keys`). -/

/-- A `ModelConfig` entry of `src/data/index.ts` (the fields the embedded
functions read). -/
structure ModelConfig where
  name : String
  provider : String
  encoding : Option String
  deprecated : Bool
deriving DecidableEq, Repr

/-- The `openai` block of `supportedModels`, in insertion order. -/
def openaiModels : List (String × ModelConfig) :=
  [("gpt-3.5-turbo", ⟨"GPT-3.5 Turbo", "openai", some "cl100k_base", true⟩),
   ("gpt-4.1-mini", ⟨"GPT-4.1 Mini", "openai", some "cl100k_base", false⟩),
   ("gpt-4.1-nano", ⟨"GPT-4.1 Nano", "openai", some "cl100k_base", false⟩),
   ("gpt-4-turbo", ⟨"GPT-4 Turbo", "openai", some "cl100k_base", false⟩),
   ("gpt-4o-mini", ⟨"GPT-4o Mini", "openai", some "o200k_base", false⟩),
   ("gpt-4.1", ⟨"GPT-4.1", "openai", some "cl100k_base", false⟩),
   ("o3-mini", ⟨"O3 Mini", "openai", some "o200k_base", false⟩),
   ("o1-mini", ⟨"O1 Mini", "openai", some "o200k_base", false⟩),
   ("gpt-4o", ⟨"GPT-4o", "openai", some "o200k_base", false⟩),
   ("gpt-4", ⟨"GPT-4", "openai", some "cl100k_base", false⟩),
   ("gpt-5", ⟨"GPT-5", "openai", some "o200k_base", false⟩),
   ("o1", ⟨"O1", "openai", some "o200k_base", false⟩)]

/-- The `anthropic` block of `supportedModels`, in insertion order. -/
def anthropicModels : List (String × ModelConfig) :=
  [("claude-3.7-sonnet", ⟨"Claude 3.7 Sonnet", "anthropic", none, false⟩),
   ("claude-3.5-sonnet", ⟨"Claude 3.5 Sonnet", "anthropic", none, false⟩),
   ("claude-sonnet-4.5", ⟨"Claude Sonnet 4.5", "anthropic", none, false⟩),
   ("claude-3.5-haiku", ⟨"Claude 3.5 Haiku", "anthropic", none, false⟩),
   ("claude-opus-4.1", ⟨"Claude Opus 4.1", "anthropic", none, false⟩),
   ("claude-sonnet-4", ⟨"Claude Sonnet 4", "anthropic", none, false⟩),
   ("claude-3-opus", ⟨"Claude 3 Opus", "anthropic", none, false⟩),
   ("claude-opus-4", ⟨"Claude Opus 4", "anthropic", none, false⟩)]

/-- `supportedModels` from `src/data/index.ts`: providers in insertion
order. -/
def supportedModels : List (String × List (String × ModelConfig)) :=
  [("openai", openaiModels), ("anthropic", anthropicModels)]

/-- Exact-key lookup in one provider block (`modelName in provider`). -/
def lookupModel : List (String × ModelConfig) → String → Option ModelConfig
  | [], _ => none
  | (k, c) :: rest, model => if k = model then some c else lookupModel rest model

/-- The provider loop of `getModelConfig`. -/
def getModelConfigAux : List (String × List (String × ModelConfig)) → String → Option ModelConfig
  | [], _ => none
  | (_, ms) :: rest, model =>
    match lookupModel ms model with
    | some c => some c
    | none => getModelConfigAux rest model

/-- `getModelConfig(modelName)` from `src/core/get-model-config.ts`. -/
def getModelConfig (model : String) : Option ModelConfig :=
  getModelConfigAux supportedModels model

/-! ## Provider detection and token counting (`src/core/count-tokens.ts`) -/

/-- One comparison of `detectProviderFromSupportedModels`:
`normalizedInput === normalizedSupported ||
normalizedInput.startsWith(normalizedSupported) ||
normalizedSupported.startsWith(normalizedInput)`. -/
def detectRule (input supported : JSString) : Bool :=
  input == supported || startsW input supported || startsW supported input

/-- The provider loop of `detectProviderFromSupportedModels`: the source
returns the provider of the first matching model name; since every match
inside one provider block yields that block's provider, this is the first
provider whose block contains any match. -/
def detectAux : List (String × List (String × ModelConfig)) → JSString → Option String
  | [], _ => none
  | (provider, ms) :: rest, n =>
    if ms.any (fun kv => detectRule n (toLowerCase kv.1.toList)) then some provider
    else detectAux rest n

/-- `detectProviderFromSupportedModels(model)` from
`src/core/count-tokens.ts` (lines 123-141). -/
def detectProviderFromSupportedModels (model : String) : Option String :=
  detectAux supportedModels (normalize model.toList)

/-- A tokenizer invocation, for instrumentation. -/
inductive TokCall where
  | tiktoken (encoding : String) (text : JSString)
  | anthropicAPI (text : JSString) (model : String)
  | anthropicLocal (text : JSString)
deriving DecidableEq, Repr

/-- The external tokenizers `count-tokens.ts` may call.  `tiktokenEncode`
models `get_encoding(encoding).encode(text).length` (an error is a thrown
exception); `anthropicAPICount` is the optional initialized API client
(`none` when `initializeAPIClient()` returns `null`); `anthropicLocalCount`
models `countTokens` of `@anthropic-ai/tokenizer`. -/
structure TokEnv where
  tiktokenEncode : String → JSString → Except String ℕ
  anthropicAPICount : Option (JSString → String → Except String ℕ)
  anthropicLocalCount : JSString → Except String ℕ

/-- `Math.ceil(text.length / 4)`, the character-based approximation. -/
def ceilDiv4 (n : ℕ) : ℕ := (n + 3) / 4

/-- `countOpenAITokens(text, model, encoding)` (lines 33-59): zero for
empty text without touching the encoder; otherwise encode, falling back to
`ceil(length / 4)` on error.  Returns the count and the encoder
invocations performed.  (The `model` argument only feeds the logged error
message in the source.) -/
def countOpenAITokens (env : TokEnv) (text : JSString) (_model : String)
    (encoding : String) : ℕ × List TokCall :=
  if text.length = 0 then (0, [])
  else
    match env.tiktokenEncode encoding text with
    | .ok tokens => (tokens, [.tiktoken encoding text])
    | .error _ => (ceilDiv4 text.length, [.tiktoken encoding text])

/-- The `try countClaudeTokensLocal(text) catch ceil(length / 4)` block
shared by `countAnthropicTokens` and `countTokensSync`. -/
def claudeLocalFallback (env : TokEnv) (text : JSString) : ℕ × List TokCall :=
  match env.anthropicLocalCount text with
  | .ok tokens => (tokens, [.anthropicLocal text])
  | .error _ => (ceilDiv4 text.length, [.anthropicLocal text])

/-- `countAnthropicTokens(text, model)` (lines 86-109): zero for empty
text; otherwise try the API client when initialized, falling back to the
local tokenizer (and then to the character approximation) on error. -/
def countAnthropicTokens (env : TokEnv) (text : JSString) (model : String) :
    ℕ × List TokCall :=
  if text.length = 0 then (0, [])
  else
    match env.anthropicAPICount with
    | some api =>
      match api text model with
      | .ok tokens => (tokens, [.anthropicAPI text model])
      | .error _ =>
        let l := claudeLocalFallback env text
        (l.1, .anthropicAPI text model :: l.2)
    | none => claudeLocalFallback env text

/-- The result of a `countTokens` run: the count, the tokenizer
invocations, and whether the unknown-model warning was emitted. -/
structure CountResult where
  count : ℕ
  calls : List TokCall
  warnedUnknown : Bool
deriving DecidableEq, Repr

/-- The shared tail of `countTokens` (lines 202-217): heuristic provider
detection, then the warned GPT-4 fallback. -/
def countTokensDetect (env : TokEnv) (text : JSString) (model : String) : CountResult :=
  let detected := detectProviderFromSupportedModels model
  if detected = some "openai" then
    let r := countOpenAITokens env text model "cl100k_base"
    ⟨r.1, r.2, false⟩
  else if detected = some "anthropic" then
    let r := countAnthropicTokens env text model
    ⟨r.1, r.2, false⟩
  else
    let r := countOpenAITokens env text "gpt-4" "cl100k_base"
    ⟨r.1, r.2, true⟩

/-- `countTokens(text, model)` from `src/core/count-tokens.ts`
(lines 185-217), the asynchronous entry point.  A registry hit with a
provider other than `openai`/`anthropic` falls through to detection, as in
the source. -/
def countTokens (env : TokEnv) (text : JSString) (model : String) : CountResult :=
  match getModelConfig model with
  | some mc =>
    if mc.provider = "openai" then
      let r := countOpenAITokens env text model (mc.encoding.getD "cl100k_base")
      ⟨r.1, r.2, false⟩
    else if mc.provider = "anthropic" then
      let r := countAnthropicTokens env text model
      ⟨r.1, r.2, false⟩
    else countTokensDetect env text model
  | none => countTokensDetect env text model

/-- The shared tail of `countTokensSync` (lines 252-272); the Anthropic
branch calls the local tokenizer directly, with no empty-text check. -/
def countTokensSyncDetect (env : TokEnv) (text : JSString) (model : String) : CountResult :=
  let detected := detectProviderFromSupportedModels model
  if detected = some "openai" then
    let r := countOpenAITokens env text model "cl100k_base"
    ⟨r.1, r.2, false⟩
  else if detected = some "anthropic" then
    let r := claudeLocalFallback env text
    ⟨r.1, r.2, false⟩
  else
    let r := countOpenAITokens env text "gpt-4" "cl100k_base"
    ⟨r.1, r.2, true⟩

/-- `countTokensSync(text, model)` from `src/core/count-tokens.ts`
(lines 229-272): like `countTokens` but the Anthropic branches invoke the
local tokenizer directly (no API, and no empty-text short-circuit). -/
def countTokensSync (env : TokEnv) (text : JSString) (model : String) : CountResult :=
  match getModelConfig model with
  | some mc =>
    if mc.provider = "openai" then
      let r := countOpenAITokens env text model (mc.encoding.getD "cl100k_base")
      ⟨r.1, r.2, false⟩
    else if mc.provider = "anthropic" then
      let r := claudeLocalFallback env text
      ⟨r.1, r.2, false⟩
    else countTokensSyncDetect env text model
  | none => countTokensSyncDetect env text model

/-! ## The check runner (`runChecks`)

From the `run-checks` source (`src/unnamed/part_009`).  Each check's
processing is wrapped in a `try`/`catch` converting any thrown error into a
`missed` result, and the checks are joined with `Promise.allSettled`; since
every task catches internally, the runner is the per-check function mapped
over the configuration.  File retrieval (`getFilesContent`) and token
counting (`countTokens`) are external oracles that may throw; `runChecks`
in this source revision calls `parseLimit(check.limit)` without a model
argument, so the registry lookup inside `parseTokenLimit` happens under a
key (`"undefined"`) that no registry carries — callers supply a registry
oracle together with that lookup behavior. -/

/-- `check.path`: a single glob string or an array. -/
inductive CheckPath where
  | single (p : String)
  | multiple (ps : List String)
deriving DecidableEq, Repr

/-- `Array.isArray(check.path) ? check.path : [check.path]`. -/
def CheckPath.toFiles : CheckPath → List String
  | .single p => [p]
  | .multiple ps => ps

/-- One configured check (`TokenCheck` of the config types). -/
structure TokenCheck where
  path : CheckPath
  name : Option String
  model : Option String
  limit : Option LimitExpr

/-- One `(filePath, content)` pair from `getFilesContent`. -/
structure FileContent where
  filePath : String
  content : JSString

/-- The collaborators of `runChecks`: the parse-limits registry, the
file-content provider, and the token counter; the latter two may throw
(the `Except` error is the thrown error's message). -/
structure RunEnv where
  registry : Registry
  getFilesContent : CheckPath → Except String (List FileContent)
  countTokensFn : JSString → String → Except String ℕ

/-- The `TokenCheckResult` record produced by `runChecks`; `Option` fields
are the ones the source leaves `undefined`. -/
structure TokenCheckResult where
  name : String
  model : String
  tokenCount : ℕ
  cost : ℚ
  files : List String
  tokenLimit : Option ℕ
  costLimit : Option ℚ
  passed : Option Bool
  costPassed : Option Bool
  missed : Bool
  message : Option String
deriving DecidableEq, Repr

/-- The thrown error's `message` for the `parseLimit` errors caught by the
check runner's `try`/`catch`.  Only the literal payload matters to the
claims; the JavaScript rendering of the interpolated number is abstracted
as `toString`. -/
def LimitErr.message : LimitErr → String
  | .invalidTokenLimitNumber n =>
    "Invalid token limit: " ++ toString (repr n) ++ ". Must be a positive finite number."
  | .invalidTokenLimitFormat s =>
    "Invalid token limit format: \"" ++ String.mk s ++
      "\". Expected formats: number, \"100k\", \"1.5m\", \"2b\", or model name."
  | .invalidCostLimitNumber n =>
    "Invalid cost limit: " ++ toString (repr n) ++ ". Must be a positive finite number."
  | .invalidCostLimitFormat s =>
    "Invalid cost limit format: \"" ++ String.mk s ++
      "\". Expected formats: number, \"$0.05\", \"5c\", \"10 cents\", or \"1 dollar\"."

/-- The `catch` branch and the zero-files branch both produce this shape. -/
def missedResult (check : TokenCheck) (message : Option String) : TokenCheckResult :=
  { name := check.name.getD "Unknown"
    model := check.model.getD "gpt-4"
    tokenCount := 0
    cost := 0
    files := check.path.toFiles
    tokenLimit := none
    costLimit := none
    passed := none
    costPassed := none
    missed := true
    message := message }

/-- The body of one check task of `runChecks` (lines 25-83 of the
`run-checks` source), with the surrounding `try`/`catch`. -/
def runCheck (env : RunEnv) (check : TokenCheck) : TokenCheckResult :=
  match env.getFilesContent check.path with
  | .error e => missedResult check (some e)
  | .ok fileContents =>
    let files := fileContents.map (·.filePath)
    if files.isEmpty then missedResult check none
    else
      let allContent := List.intercalate ['\n'] (fileContents.map (·.content))
      let modelName := check.model.getD "gpt-4"
      match env.countTokensFn allContent modelName with
      | .error e => missedResult check (some e)
      | .ok tokenCount =>
        let baseName := check.name.getD (String.intercalate ", " files)
        let cost := calculateCost env.registry tokenCount modelName
        match check.limit with
        | none =>
          { name := baseName, model := modelName, tokenCount := tokenCount
            cost := cost, files := files, tokenLimit := none, costLimit := none
            passed := none, costPassed := none, missed := false, message := none }
        | some l =>
          match parseLimit env.registry l "undefined" with
          | .error e => missedResult check (some e.message)
          | .ok pl =>
            { name := baseName, model := modelName, tokenCount := tokenCount
              cost := cost, files := files
              tokenLimit := pl.tokens
              costLimit := pl.cost
              passed := pl.tokens.map (fun tl => tokenCount ≤ tl)
              costPassed := pl.cost.map (fun cl => cost ≤ cl)
              missed := false, message := none }

/-- The aggregation test of the result loop (lines 92-98): a check makes
the run fail when it is missed or one of its configured limits failed. -/
def checkFailed (r : TokenCheckResult) : Bool :=
  r.missed || r.passed == some false || r.costPassed == some false

/-- The `ReporterConfig` value `runChecks` resolves to. -/
structure ReporterConfig where
  checks : List TokenCheckResult
  failed : Bool
  configPath : Option String
deriving DecidableEq, Repr

/-- `runChecks(config, configPath)`: every task settles fulfilled (the
`catch` is inside each task), so the rejected branch of the result loop is
unreachable and the runner maps `runCheck` over the configuration. -/
def runChecks (env : RunEnv) (config : List TokenCheck) (configPath : Option String) :
    ReporterConfig :=
  let checks := config.map (runCheck env)
  { checks := checks, failed := checks.any checkFailed, configPath := configPath }

/-! ## Concrete registries for witnesses and counterexamples -/

/-- The empty registry: no model has a context window or a price. -/
def emptyReg : Registry := fun _ => none

/-- Modelled from the spec: the pricing/context registry
(`src/data/open-router-models`, imported by `parse-limits.ts`) is not among
the provided sources.  This concrete instance follows the spec's registry
description and the values pinned by the repository's own tests
(`gpt-4`: context window 8191 and $0.03 per 1k input tokens in
`test/core/parse-limits.test.ts`); `claude-3-opus` carries its spec-level
200k context window. -/
def sampleRegistry : Registry := fun m =>
  if m = "gpt-4" then some ⟨8191, 3/100⟩
  else if m = "claude-3-opus" then some ⟨200000, 3/200⟩
  else none

/-! ## Claim C1: model-name-as-limit -/

/-- C1 counterexample: the registry lookup in `parseTokenLimit` uses the
*model argument*, not the limit string.  `"gpt-4"` is registered with
context window 8191, yet `parseLimit("gpt-4", "claude-3-opus")` returns the
model argument's context window 200000, not 8191. -/
theorem claim_C1_counterexample :
    lookupContextWindow sampleRegistry "gpt-4" = some 8191 ∧
    parseLimit sampleRegistry (.str "gpt-4".toList) "claude-3-opus" =
      .ok ⟨some 200000, none⟩ ∧
    (200000 : ℕ) ≠ 8191 := by
  refine ⟨by decide, by decide, by decide⟩

/-- C1 amended: for every string limit classified as a token limit and
every model *argument* registered with a truthy context window `w`,
`parseLimit` returns `w` — the limit string itself is never looked up in
the registry. -/
theorem claim_C1 (reg : Registry) (s : JSString) (model : String) (w : ℕ)
    (hc : isCostClassified (normalize s) = false)
    (hw : lookupContextWindow reg model = some w) :
    parseLimit reg (.str s) model = .ok ⟨some w, none⟩ := by
  simp [parseLimit, hc, parseTokenLimit, hw, Except.map]

/-- C1 witness: with the limit string equal to the model argument, the
registered context window is returned (the case the repository tests). -/
theorem claim_C1_witness :
    parseLimit sampleRegistry (.str "gpt-4".toList) "gpt-4" = .ok ⟨some 8191, none⟩ :=
  claim_C1 sampleRegistry "gpt-4".toList "gpt-4" 8191 (by decide) (by decide)

/-! ## Claim C2: numeric-suffix limits -/

/-- C2 counterexample: the suffix law does *not* hold for every model
argument — when the model argument is registered with a context window, the
suffix string is ignored: `parseLimit("1k", "gpt-4").tokens = 8191`, not
1000. -/
theorem claim_C2_counterexample :
    parseLimit sampleRegistry (.str "1k".toList) "gpt-4" = .ok ⟨some 8191, none⟩ ∧
    parseLimit sampleRegistry (.str "1k".toList) "gpt-4" ≠ .ok ⟨some 1000, none⟩ := by
  refine ⟨by decide, by decide⟩

/-- C2 amended: for every model argument with no registered (truthy)
context window, a string limit matching `<number>[suffix]` parses to
`floor(number × multiplier)` with k/m/b/g/t mapping to 1e3/1e6/1e9/1e9/1e12
and the empty suffix to 1; in particular `1k` ↦ 1000, `1.5M` ↦ 1500000,
`2b` ↦ 2000000000, `1t` ↦ 1000000000000, and `1g` and `1b` agree. -/
theorem claim_C2 (reg : Registry) (model : String)
    (hw : lookupContextWindow reg model = none) :
    (∀ (s : JSString) (lit : DecLit) (mg : Mag),
      isCostClassified (normalize s) = false →
      tokenLimitMatch (normalize s) = some (lit, mg) →
      parseLimit reg (.str s) model = .ok ⟨some ⌊lit.val * mg.mult⌋₊, none⟩) ∧
    parseLimit reg (.str "1k".toList) model = .ok ⟨some 1000, none⟩ ∧
    parseLimit reg (.str "1.5M".toList) model = .ok ⟨some 1500000, none⟩ ∧
    parseLimit reg (.str "2b".toList) model = .ok ⟨some 2000000000, none⟩ ∧
    parseLimit reg (.str "1t".toList) model = .ok ⟨some 1000000000000, none⟩ ∧
    parseLimit reg (.str "1g".toList) model = parseLimit reg (.str "1b".toList) model := by
  refine ⟨?_, ?_, ?_, ?_, ?_, ?_⟩
  · intro s lit mg hc hm
    simp [parseLimit, hc, parseTokenLimit, hw, hm, Except.map]
  · rw [parseLimit_str_token_eval reg _ _ ⟨['1'], []⟩ .k (by decide) hw (by decide)]
    decide
  · rw [parseLimit_str_token_eval reg _ _ ⟨['1'], ['5']⟩ .m (by decide) hw (by decide)]
    decide
  · rw [parseLimit_str_token_eval reg _ _ ⟨['2'], []⟩ .b (by decide) hw (by decide)]
    decide
  · rw [parseLimit_str_token_eval reg _ _ ⟨['1'], []⟩ .t (by decide) hw (by decide)]
    decide
  · rw [parseLimit_str_token_eval reg _ _ ⟨['1'], []⟩ .g (by decide) hw (by decide),
      parseLimit_str_token_eval reg _ _ ⟨['1'], []⟩ .b (by decide) hw (by decide)]
    decide

/-- C2 witness: the suffix laws at the empty registry. -/
theorem claim_C2_witness :
    parseLimit emptyReg (.str "1k".toList) "" = .ok ⟨some 1000, none⟩ ∧
    parseLimit emptyReg (.str "1.5M".toList) "" = .ok ⟨some 1500000, none⟩ := by
  have h := claim_C2 emptyReg "" (by decide)
  exact ⟨h.2.1, h.2.2.1⟩

/-! ## Claim C7: numeric limits -/

/-- C7: a finite non-negative number limit parses to its floor as a token
count (never a cost); negative or non-finite numbers raise.  (All values
reaching `Math.floor` are non-negative, so the floor is `Nat.floor`.) -/
theorem claim_C7 (reg : Registry) (model : String) (q : ℚ) :
    (0 ≤ q → parseLimit reg (.num (.finite q)) model = .ok ⟨some ⌊q⌋₊, none⟩) ∧
    (q < 0 → parseLimit reg (.num (.finite q)) model =
      .error (.invalidTokenLimitNumber (.finite q))) ∧
    parseLimit reg (.num .nan) model = .error (.invalidTokenLimitNumber .nan) ∧
    parseLimit reg (.num .posInf) model = .error (.invalidTokenLimitNumber .posInf) ∧
    parseLimit reg (.num .negInf) model = .error (.invalidTokenLimitNumber .negInf) := by
  refine ⟨?_, ?_, ?_, ?_, ?_⟩
  · intro h
    simp [parseLimit, parseTokenLimit, not_lt.mpr h, Except.map]
  · intro h
    simp [parseLimit, parseTokenLimit, h, Except.map]
  · simp [parseLimit, parseTokenLimit, Except.map]
  · simp [parseLimit, parseTokenLimit, Except.map]
  · simp [parseLimit, parseTokenLimit, Except.map]

/-- C7 witness: `parseLimit(2.5) = { tokens: 2 }` and `parseLimit(-1)`
raises. -/
theorem claim_C7_witness :
    parseLimit emptyReg (.num (.finite (5/2))) "" = .ok ⟨some 2, none⟩ ∧
    parseLimit emptyReg (.num (.finite (-1))) "" =
      .error (.invalidTokenLimitNumber (.finite (-1))) := by
  constructor
  · rw [(claim_C7 emptyReg "" (5/2)).1 (by norm_num)]
    rw [show (5/2 : ℚ) = (5 : ℚ) / (2 : ℕ) by norm_num, Nat.floor_div_nat, Nat.floor_ofNat]
  · exact (claim_C7 emptyReg "" (-1)).2.1 (by norm_num)

/-! ## Claim C9: the cost calculator -/

/-- C9: `calculateCost` is zero for unknown models, otherwise exactly
`(tokens / 1000) * costPer1kTokens` with no rounding; at 1000 tokens it is
exactly the per-1k price, and at 0 tokens it is zero for every model. -/
theorem claim_C9 (reg : Registry) (model : String) (t : ℚ) :
    (reg model = none → calculateCost reg t model = 0) ∧
    (∀ cm, reg model = some cm →
      calculateCost reg t model = t / 1000 * cm.costPer1kTokens) ∧
    (∀ cm, reg model = some cm →
      calculateCost reg 1000 model = cm.costPer1kTokens) ∧
    calculateCost reg 0 model = 0 := by
  refine ⟨?_, ?_, ?_, ?_⟩
  · intro h
    simp [calculateCost, h]
  · intro cm h
    by_cases hz : cm.costPer1kTokens = 0 <;> simp [calculateCost, h, hz]
  · intro cm h
    by_cases hz : cm.costPer1kTokens = 0 <;> simp [calculateCost, h, hz]
  · rcases h : reg model with _ | cm
    · simp [calculateCost, h]
    · by_cases hz : cm.costPer1kTokens = 0 <;> simp [calculateCost, h, hz]

/-- C9 witness: at the sample registry, `calculateCost(1000, "gpt-4")` is
exactly the $0.03 input price, `calculateCost(0, "gpt-4") = 0`, and an
unknown model costs zero. -/
theorem claim_C9_witness :
    calculateCost sampleRegistry 1000 "gpt-4" = 3/100 ∧
    calculateCost sampleRegistry 0 "gpt-4" = 0 ∧
    calculateCost sampleRegistry 1000 "custom-model" = 0 := by
  refine ⟨?_, ?_, ?_⟩
  · exact (claim_C9 sampleRegistry "gpt-4" 1000).2.2.1 ⟨8191, 3/100⟩ rfl
  · exact (claim_C9 sampleRegistry "gpt-4" 0).2.2.2
  · exact (claim_C9 sampleRegistry "custom-model" 1000).1 rfl

/-! ## Claim C3: cost-versus-token classification -/

theorem cent_toList : "cent".toList = ['c', 'e', 'n', 't'] := rfl

theorem startsW_head_eq {s : JSString} {c : Char} {t : JSString}
    (h : startsW s (c :: t) = true) : s.head? = some c := by
  cases s with
  | nil => simp [startsW] at h
  | cons a as =>
    simp only [startsW, Bool.and_eq_true, decide_eq_true_eq] at h
    simp [h.1]

/-- A string containing the substring `cent` contains the letter `c`. -/
theorem contains_c_of_containsSeq_cent (s : JSString)
    (h : containsSeq "cent".toList s = true) : listContains s 'c' = true := by
  induction s with
  | nil => simp [containsSeq, startsW, cent_toList] at h
  | cons a as ih =>
    simp only [containsSeq, Bool.or_eq_true] at h
    rcases h with h | h
    · rw [cent_toList] at h
      have ha := startsW_head_eq h
      simp only [List.head?_cons, Option.some.injEq] at ha
      simp [listContains, ha]
    · have := ih h
      simp only [listContains, List.any_cons, Bool.or_eq_true] at this ⊢
      exact Or.inr this

/-- The claim's currency-marker predicate, stated from the spec's words:
a dollar sign, the letter `c` as a standalone cents suffix (the
`<amount>c` pattern), or the words `cent(s)`/`dollar(s)`. -/
def specCurrencyMarker (n : JSString) : Bool :=
  listContains n '$' || (costPatCentsSuffix n).isSome ||
    containsSeq "cent".toList n || containsSeq "dollar".toList n

/-- C3 counterexample: `"abc123"` has no currency marker in the claim's
sense (its `c` is not a standalone cents suffix), yet the code classifies
it as a cost limit — `parseLimit` fails with the *cost* format error, not
the token one. -/
theorem claim_C3_counterexample :
    isCostClassified (normalize "abc123".toList) = true ∧
    specCurrencyMarker (normalize "abc123".toList) = false ∧
    parseLimit emptyReg (.str "abc123".toList) "" =
      .error (.invalidCostLimitFormat "abc123".toList) := by
  refine ⟨by decide, by decide, ?_⟩
  have hm : costFirstMatch (normalize "abc123".toList) = none := by decide
  have hc : isCostClassified (normalize "abc123".toList) = true := by decide
  simp only [parseLimit, hc, if_true, parseCostLimitStr, hm, Except.map]

/-- C3 amended: the classification marker is: contains `$`, contains the
letter `c` *anywhere*, or contains the substring `dollar` (the `cent`
test is subsumed by the letter `c`); a string without such a marker always
takes the token path, and one with it always takes the cost path. -/
theorem claim_C3 (s : JSString) :
    (isCostClassified s =
      (listContains s '$' || listContains s 'c' || containsSeq "dollar".toList s)) ∧
    (∀ (reg : Registry) (model : String), isCostClassified (normalize s) = false →
      parseLimit reg (.str s) model =
        Except.map (fun t => ParsedLimit.mk (some t) none)
          (parseTokenLimit reg (.str s) model)) ∧
    (∀ (reg : Registry) (model : String), isCostClassified (normalize s) = true →
      parseLimit reg (.str s) model =
        Except.map (fun c => ParsedLimit.mk none (some c)) (parseCostLimitStr s)) := by
  refine ⟨?_, ?_, ?_⟩
  · unfold isCostClassified
    cases hcent : containsSeq "cent".toList s
    · simp [hcent]
    · have hc := contains_c_of_containsSeq_cent s hcent
      simp [hcent, hc]
  · intro reg model h
    simp [parseLimit, h]
  · intro reg model h
    simp [parseLimit, h]

/-- C3 witness: a suffix string takes the token path, a cents string the
cost path, and the marker equivalence at a concrete string. -/
theorem claim_C3_witness :
    isCostClassified "1k".toList =
      (listContains "1k".toList '$' || listContains "1k".toList 'c' ||
        containsSeq "dollar".toList "1k".toList) ∧
    parseLimit emptyReg (.str "1k".toList) "" =
      Except.map (fun t => ParsedLimit.mk (some t) none)
        (parseTokenLimit emptyReg (.str "1k".toList) "") ∧
    parseLimit emptyReg (.str "5c".toList) "" =
      Except.map (fun c => ParsedLimit.mk none (some c)) (parseCostLimitStr "5c".toList) :=
  ⟨(claim_C3 "1k".toList).1, (claim_C3 "1k".toList).2.1 emptyReg "" (by decide),
   (claim_C3 "5c".toList).2.2 emptyReg "" (by decide)⟩

/-! ## Claim C8: cost-string parsing

The code's cents test (`normalizedCost.includes('c') ||
normalizedCost.includes('cent')`) is a property of the whole string, while
the spec describes it per matched pattern; the lemmas below show the two
coincide: a string matched by the `$`, `dollar(s)` or bare patterns cannot
contain the letter `c`, and one matched by a cents pattern always does. -/

/-- A matched numeric literal splits the input into digit/dot characters
followed by the remainder. -/
theorem numLit_split {s : JSString} {lit : DecLit} {r : JSString}
    (h : numLit s = some (lit, r)) :
    ∃ pre : JSString, s = pre ++ r ∧ ∀ c ∈ pre, (c.isDigit || c = '.') = true := by
  simp only [numLit] at h
  split at h
  · exact absurd h (by simp)
  · split at h
    next rest2 heq =>
      split at h
      · exact absurd h (by simp)
      · simp only [Option.some.injEq, Prod.mk.injEq] at h
        refine ⟨s.takeWhile Char.isDigit ++ '.' :: rest2.takeWhile Char.isDigit, ?_, ?_⟩
        · rw [List.append_assoc, List.cons_append, ← h.2,
            List.takeWhile_append_dropWhile, ← heq, List.takeWhile_append_dropWhile]
        · intro c hc
          rcases List.mem_append.mp hc with hc | hc
          · simp [List.mem_takeWhile_imp hc]
          · rcases List.mem_cons.mp hc with hc | hc
            · simp [hc]
            · simp [List.mem_takeWhile_imp hc]
    next hne =>
      simp only [Option.some.injEq, Prod.mk.injEq] at h
      refine ⟨s.takeWhile Char.isDigit, ?_, ?_⟩
      · rw [← h.2, List.takeWhile_append_dropWhile]
      · intro c hc
        simp [List.mem_takeWhile_imp hc]

theorem listContains_append (a b : JSString) (c : Char) :
    listContains (a ++ b) c = (listContains a c || listContains b c) := by
  simp [listContains]

/-- Digit/dot characters never contain `c`. -/
theorem digits_no_c {pre : JSString}
    (hp : ∀ c ∈ pre, (c.isDigit || c = '.') = true) : listContains pre 'c' = false := by
  simp only [listContains, List.any_eq_false, decide_eq_true_eq]
  intro x hx hxc
  subst hxc
  exact absurd (hp 'c' hx) (by decide)

/-- Whitespace never contains `c`. -/
theorem spaces_no_c {sp : JSString}
    (hp : ∀ c ∈ sp, jsIsSpace c = true) : listContains sp 'c' = false := by
  simp only [listContains, List.any_eq_false, decide_eq_true_eq]
  intro x hx hxc
  subst hxc
  exact absurd (hp 'c' hx) (by decide)

theorem containsSeq_append_right (pat a b : JSString)
    (h : containsSeq pat b = true) : containsSeq pat (a ++ b) = true := by
  induction a with
  | nil => simpa using h
  | cons c cs ih =>
    simp only [List.cons_append, containsSeq, Bool.or_eq_true]
    exact Or.inr ih

theorem costPatDollarSign_no_c {s : JSString} {lit : DecLit}
    (h : costPatDollarSign s = some lit) : listContains s 'c' = false := by
  unfold costPatDollarSign at h
  split at h
  next a rest =>
    split at h
    next ha =>
      split at h
      next v r hr =>
        split at h
        next hrnil =>
          subst hrnil
          obtain ⟨pre, hs, hpre⟩ := numLit_split hr
          rw [List.append_nil] at hs
          subst ha
          rw [hs, show ('$' : Char) :: pre = ['$'] ++ pre from rfl, listContains_append,
            digits_no_c hpre]
          decide
        · exact absurd h (by simp)
      · exact absurd h (by simp)
    · exact absurd h (by simp)
  · exact absurd h (by simp)

theorem costPatBare_no_c {s : JSString} {lit : DecLit}
    (h : costPatBare s = some lit) : listContains s 'c' = false := by
  unfold costPatBare at h
  split at h
  next v r hr =>
    split at h
    next hrnil =>
      subst hrnil
      obtain ⟨pre, hs, hpre⟩ := numLit_split hr
      rw [List.append_nil] at hs
      subst hs
      exact digits_no_c hpre
    · exact absurd h (by simp)
  · exact absurd h (by simp)

theorem costPatCentsSuffix_contains_c {s : JSString} {lit : DecLit}
    (h : costPatCentsSuffix s = some lit) : listContains s 'c' = true := by
  unfold costPatCentsSuffix at h
  split at h
  next v r hr =>
    split at h
    next hrc =>
      subst hrc
      obtain ⟨pre, hs, _⟩ := numLit_split hr
      subst hs
      simp [listContains_append, listContains]
    · exact absurd h (by simp)
  · exact absurd h (by simp)

theorem costPatCentsWord_containsSeq {s : JSString} {lit : DecLit}
    (h : costPatCentsWord s = some lit) : containsSeq "cent".toList s = true := by
  unfold costPatCentsWord at h
  split at h
  next v rest hr =>
    split at h
    · exact absurd h (by simp)
    · split at h
      next hw =>
        obtain ⟨pre, hs, _⟩ := numLit_split hr
        subst hs
        have hrest : rest = rest.takeWhile jsIsSpace ++ rest.dropWhile jsIsSpace :=
          (List.takeWhile_append_dropWhile jsIsSpace rest).symm
        rw [hrest]
        apply containsSeq_append_right
        apply containsSeq_append_right
        rcases hw with hw | hw <;> rw [hw] <;> decide
      · exact absurd h (by simp)
  · exact absurd h (by simp)

theorem costPatDollarWord_no_c {s : JSString} {lit : DecLit}
    (h : costPatDollarWord s = some lit) : listContains s 'c' = false := by
  unfold costPatDollarWord at h
  split at h
  next v rest hr =>
    split at h
    · exact absurd h (by simp)
    · split at h
      next hw =>
        obtain ⟨pre, hs, hpre⟩ := numLit_split hr
        subst hs
        have hrest : rest = rest.takeWhile jsIsSpace ++ rest.dropWhile jsIsSpace :=
          (List.takeWhile_append_dropWhile jsIsSpace rest).symm
        rw [hrest, listContains_append, listContains_append]
        rw [digits_no_c hpre, spaces_no_c (fun c hc => List.mem_takeWhile_imp hc)]
        rcases hw with hw | hw <;> rw [hw] <;> decide
      · exact absurd h (by simp)
  · exact absurd h (by simp)

/-- The five cost patterns, named. -/
inductive CostPat where
  | dollarSign | centsSuffix | centsWord | dollarWord | bare
deriving DecidableEq, Repr

/-- The first-match loop, remembering which pattern matched. -/
def costFirstMatchTagged (s : JSString) : Option (CostPat × DecLit) :=
  match costPatDollarSign s with
  | some v => some (.dollarSign, v)
  | none =>
    match costPatCentsSuffix s with
    | some v => some (.centsSuffix, v)
    | none =>
      match costPatCentsWord s with
      | some v => some (.centsWord, v)
      | none =>
        match costPatDollarWord s with
        | some v => some (.dollarWord, v)
        | none => (costPatBare s).map (fun v => (.bare, v))

/-- Modelled from the spec's words (step 4 of the limit parser): the first
matching pattern among `$<amount>`, `<amount>c`, `<amount> cent(s)`,
`<amount> dollar(s)`, bare `<amount>` determines the value, cents-family
matches are divided by 100, and a string matching no pattern fails. -/
def specCostParse (s : JSString) : Except LimitErr ℚ :=
  match costFirstMatchTagged (normalize s) with
  | some (p, lit) =>
    if p = .centsSuffix ∨ p = .centsWord then .ok (lit.val / 100) else .ok lit.val
  | none => .error (.invalidCostLimitFormat s)

theorem costFirstMatch_eq_tagged (s : JSString) :
    costFirstMatch s = (costFirstMatchTagged s).map (·.2) := by
  unfold costFirstMatch costFirstMatchTagged
  rcases costPatDollarSign s with _ | v1
  · rcases costPatCentsSuffix s with _ | v2
    · rcases costPatCentsWord s with _ | v3
      · rcases costPatDollarWord s with _ | v4
        · rcases costPatBare s with _ | v5 <;> rfl
        · rfl
      · rfl
    · rfl
  · rfl

/-- The code's whole-string cents test agrees with the spec's
per-pattern cents-family test on every matched string. -/
theorem flag_of_tagged (s : JSString) (p : CostPat) (lit : DecLit)
    (ht : costFirstMatchTagged s = some (p, lit)) :
    (listContains s 'c' || containsSeq "cent".toList s) =
      (p = .centsSuffix ∨ p = .centsWord) := by
  have hnoc : listContains s 'c' = false → containsSeq "cent".toList s = false := by
    intro hc
    cases h : containsSeq "cent".toList s
    · rfl
    · exact absurd (contains_c_of_containsSeq_cent s h) (by simp [hc])
  unfold costFirstMatchTagged at ht
  rcases h1 : costPatDollarSign s with _ | v1 <;> rw [h1] at ht
  case some =>
    simp only [Option.some.injEq, Prod.mk.injEq] at ht
    have hc := costPatDollarSign_no_c h1
    have hcent := hnoc hc
    rw [cent_toList] at hcent
    simp [← ht.1, hc, hcent]
  rcases h2 : costPatCentsSuffix s with _ | v2 <;> rw [h2] at ht
  case some =>
    simp only [Option.some.injEq, Prod.mk.injEq] at ht
    have hc := costPatCentsSuffix_contains_c h2
    simp [← ht.1, hc]
  rcases h3 : costPatCentsWord s with _ | v3 <;> rw [h3] at ht
  case some =>
    simp only [Option.some.injEq, Prod.mk.injEq] at ht
    have hc := costPatCentsWord_containsSeq h3
    rw [cent_toList] at hc
    simp [← ht.1, hc]
  rcases h4 : costPatDollarWord s with _ | v4 <;> rw [h4] at ht
  case some =>
    simp only [Option.some.injEq, Prod.mk.injEq] at ht
    have hc := costPatDollarWord_no_c h4
    have hcent := hnoc hc
    rw [cent_toList] at hcent
    simp [← ht.1, hc, hcent]
  rcases h5 : costPatBare s with _ | v5 <;> rw [h5] at ht
  case none => simp at ht
  case some =>
    simp only [Option.map_some', Option.some.injEq, Prod.mk.injEq] at ht
    have hc := costPatBare_no_c h5
    have hcent := hnoc hc
    rw [cent_toList] at hcent
    simp [← ht.1, hc, hcent]

/-- The code's cost-string parser agrees with the spec's first-match,
cents-divided description on every string. -/
theorem parseCost_agrees_spec (s : JSString) : parseCostLimitStr s = specCostParse s := by
  simp only [parseCostLimitStr, specCostParse]
  rw [costFirstMatch_eq_tagged]
  rcases ht : costFirstMatchTagged (normalize s) with _ | ⟨p, lit⟩
  · simp
  · simp only [Option.map_some']
    have hflag := flag_of_tagged _ p lit ht
    by_cases hp : p = CostPat.centsSuffix ∨ p = CostPat.centsWord
    · rw [if_pos hp]
      have : (listContains (normalize s) 'c' ||
          containsSeq "cent".toList (normalize s)) = true := by
        rw [hflag]; simp [hp]
      rw [this]
      simp
    · rw [if_neg hp]
      have hff : ¬((listContains (normalize s) 'c' ||
          containsSeq "cent".toList (normalize s)) = true) := by
        rw [hflag]; exact hp
      rw [Bool.not_eq_true] at hff
      rw [hff]
      simp

/-- C8: the first matching cost pattern determines the value with the
cents family divided by 100, the concrete laws of the claim hold for every
registry and model argument, and an unmatched cost string raises. -/
theorem claim_C8 :
    (∀ s : JSString, parseCostLimitStr s = specCostParse s) ∧
    ∀ (reg : Registry) (model : String),
      parseLimit reg (.str "$0.05".toList) model = .ok ⟨none, some (5/100)⟩ ∧
      parseLimit reg (.str "5c".toList) model = .ok ⟨none, some (5/100)⟩ ∧
      parseLimit reg (.str "5 cents".toList) model = .ok ⟨none, some (5/100)⟩ ∧
      parseLimit reg (.str "1 dollar".toList) model = .ok ⟨none, some 1⟩ ∧
      parseLimit reg (.str "$oops".toList) model =
        .error (.invalidCostLimitFormat "$oops".toList) := by
  refine ⟨parseCost_agrees_spec, ?_⟩
  intro reg model
  have h0 : natOfDigits [] = 0 := by decide
  have h5 : natOfDigits ['5'] = 5 := by decide
  refine ⟨?_, ?_, ?_, ?_, ?_⟩
  · have hc : isCostClassified (normalize "$0.05".toList) = true := by decide
    simp only [parseLimit, hc, if_true]
    rw [parseCostLimitStr_eval_plain _ ⟨['0'], ['0', '5']⟩ (by decide) (by decide)]
    have ha : natOfDigits ['0'] = 0 := by decide
    have hb : natOfDigits ['0', '5'] = 5 := by decide
    simp only [Except.map]
    norm_num [DecLit.val, ha, hb]
  · have hc : isCostClassified (normalize "5c".toList) = true := by decide
    simp only [parseLimit, hc, if_true]
    rw [parseCostLimitStr_eval_cents _ ⟨['5'], []⟩ (by decide) (by decide)]
    simp only [Except.map]
    norm_num [DecLit.val, h5, h0]
  · have hc : isCostClassified (normalize "5 cents".toList) = true := by decide
    simp only [parseLimit, hc, if_true]
    rw [parseCostLimitStr_eval_cents _ ⟨['5'], []⟩ (by decide) (by decide)]
    simp only [Except.map]
    norm_num [DecLit.val, h5, h0]
  · have hc : isCostClassified (normalize "1 dollar".toList) = true := by decide
    simp only [parseLimit, hc, if_true]
    rw [parseCostLimitStr_eval_plain _ ⟨['1'], []⟩ (by decide) (by decide)]
    have h1 : natOfDigits ['1'] = 1 := by decide
    simp only [Except.map]
    norm_num [DecLit.val, h1, h0]
  · have hc : isCostClassified (normalize "$oops".toList) = true := by decide
    have hm : costFirstMatch (normalize "$oops".toList) = none := by decide
    simp only [parseLimit, hc, if_true, parseCostLimitStr, hm, Except.map]

/-! ## Claim C6: counting tokens of the empty string -/

theorem countOpenAITokens_empty (env : TokEnv) (model encoding : String) :
    countOpenAITokens env [] model encoding = (0, []) := rfl

theorem countAnthropicTokens_empty (env : TokEnv) (model : String) :
    countAnthropicTokens env [] model = (0, []) := rfl

theorem claudeLocalFallback_calls (env : TokEnv) (text : JSString) :
    (claudeLocalFallback env text).2 = [.anthropicLocal text] := by
  unfold claudeLocalFallback
  rcases env.anthropicLocalCount text with _ | n <;> rfl

theorem countTokensDetect_empty (env : TokEnv) (model : String) :
    (countTokensDetect env [] model).count = 0 ∧
      (countTokensDetect env [] model).calls = [] := by
  unfold countTokensDetect
  by_cases h1 : detectProviderFromSupportedModels model = some "openai"
  · simp [h1, countOpenAITokens_empty]
  · by_cases h2 : detectProviderFromSupportedModels model = some "anthropic"
    · simp [h1, h2, countAnthropicTokens_empty]
    · simp [h1, h2, countOpenAITokens_empty]

/-- Whether `countTokensSync` resolves `model` to an Anthropic branch
(registry-resolved or heuristically detected). -/
def syncAnthropicPath (model : String) : Bool :=
  match getModelConfig model with
  | some mc =>
    if mc.provider = "openai" then false
    else if mc.provider = "anthropic" then true
    else detectProviderFromSupportedModels model = some "anthropic"
  | none => detectProviderFromSupportedModels model = some "anthropic"

/-- A probe environment whose local Anthropic tokenizer reports 7 tokens
for every input (in particular for the empty string). -/
def probeTokEnv : TokEnv :=
  { tiktokenEncode := fun _ _ => .ok 0
    anthropicAPICount := none
    anthropicLocalCount := fun _ => .ok 7 }

/-- C6 counterexample: on the registry-resolved Anthropic path of
`countTokensSync`, the local tokenizer *is* invoked on the empty string
and its result is returned as is — with a tokenizer reporting 7 for the
empty input, `countTokensSync("", "claude-3-opus")` is 7, not 0. -/
theorem claim_C6_counterexample :
    countTokensSync probeTokEnv [] "claude-3-opus" =
      ⟨7, [.anthropicLocal []], false⟩ ∧
    ¬((countTokensSync probeTokEnv [] "claude-3-opus").count = 0 ∧
      (countTokensSync probeTokEnv [] "claude-3-opus").calls = []) := by
  refine ⟨by decide, by decide⟩

/-- C6 amended: the asynchronous `countTokens` returns 0 for empty input
on every path without invoking any tokenizer; `countTokensSync` does so on
every path *except* the Anthropic ones, where it passes the empty string
to the local tokenizer. -/
theorem claim_C6 :
    (∀ (env : TokEnv) (model : String),
      (countTokens env [] model).count = 0 ∧ (countTokens env [] model).calls = []) ∧
    (∀ (env : TokEnv) (model : String), syncAnthropicPath model = false →
      (countTokensSync env [] model).count = 0 ∧
        (countTokensSync env [] model).calls = []) ∧
    (∀ (env : TokEnv) (model : String), syncAnthropicPath model = true →
      (countTokensSync env [] model).calls = [.anthropicLocal []]) := by
  refine ⟨?_, ?_, ?_⟩
  · intro env model
    unfold countTokens
    rcases h : getModelConfig model with _ | mc
    · exact countTokensDetect_empty env model
    · by_cases h1 : mc.provider = "openai"
      · simp [h1, countOpenAITokens_empty]
      · by_cases h2 : mc.provider = "anthropic"
        · simp [h1, h2, countAnthropicTokens_empty]
        · simp only [h1, h2, if_false]
          exact countTokensDetect_empty env model
  · intro env model hsync
    unfold countTokensSync
    unfold syncAnthropicPath at hsync
    rcases h : getModelConfig model with _ | mc <;> rw [h] at hsync
    · unfold countTokensSyncDetect
      by_cases h1 : detectProviderFromSupportedModels model = some "openai"
      · simp [h1, countOpenAITokens_empty]
      · by_cases h2 : detectProviderFromSupportedModels model = some "anthropic"
        · simp [h2] at hsync
        · simp [h1, h2, countOpenAITokens_empty]
    · by_cases h1 : mc.provider = "openai"
      · simp [h1, countOpenAITokens_empty]
      · by_cases h2 : mc.provider = "anthropic"
        · simp [h1, h2] at hsync
        · simp only [h1, h2, if_false]
          unfold countTokensSyncDetect
          simp only [h1, h2, if_false] at hsync
          by_cases h3 : detectProviderFromSupportedModels model = some "openai"
          · simp [h3, countOpenAITokens_empty]
          · by_cases h4 : detectProviderFromSupportedModels model = some "anthropic"
            · simp [h4] at hsync
            · simp [h3, h4, countOpenAITokens_empty]
  · intro env model hsync
    unfold countTokensSync
    unfold syncAnthropicPath at hsync
    rcases h : getModelConfig model with _ | mc <;> rw [h] at hsync
    · unfold countTokensSyncDetect
      simp only [decide_eq_true_eq] at hsync
      have h1 : ¬detectProviderFromSupportedModels model = some "openai" := by
        rw [hsync]; simp
      simp [h1, hsync, claudeLocalFallback_calls]
    · by_cases h1 : mc.provider = "openai"
      · simp [h1] at hsync
      · by_cases h2 : mc.provider = "anthropic"
        · simp [h1, h2, claudeLocalFallback_calls]
        · simp only [h1, h2, if_false] at hsync ⊢
          unfold countTokensSyncDetect
          simp only [decide_eq_true_eq] at hsync
          have h3 : ¬detectProviderFromSupportedModels model = some "openai" := by
            rw [hsync]; simp
          simp [h3, hsync, claudeLocalFallback_calls]

/-- C6 witness: the amended statement at concrete models. -/
theorem claim_C6_witness :
    (countTokens probeTokEnv [] "gpt-4").count = 0 ∧
    (countTokens probeTokEnv [] "gpt-4").calls = [] ∧
    (countTokensSync probeTokEnv [] "gpt-4").count = 0 ∧
    (countTokensSync probeTokEnv [] "gpt-4").calls = [] ∧
    (countTokensSync probeTokEnv [] "claude-3-opus").calls = [.anthropicLocal []] :=
  ⟨(claim_C6.1 probeTokEnv "gpt-4").1, (claim_C6.1 probeTokEnv "gpt-4").2,
   (claim_C6.2.1 probeTokEnv "gpt-4" (by decide)).1,
   (claim_C6.2.1 probeTokEnv "gpt-4" (by decide)).2,
   claim_C6.2.2 probeTokEnv "claude-3-opus" (by decide)⟩

/-! ## Claim C10: heuristic provider detection on prefix inputs -/

theorem startsW_nil_right (s : JSString) : startsW s [] = true := by
  cases s <;> rfl

theorem detectRule_of_startsW {n m : JSString} (h : startsW m n = true) :
    detectRule n m = true := by
  unfold detectRule
  rw [h]
  simp

theorem detectRule_false_of_head {n m : JSString} {c d : Char}
    (hn : n.head? = some c) (hm : m.head? = some d) (hcd : c ≠ d) :
    detectRule n m = false := by
  cases n with
  | nil => simp at hn
  | cons a as =>
    cases m with
    | nil => simp at hm
    | cons b bs =>
      simp only [List.head?_cons, Option.some.injEq] at hn hm
      subst hn hm
      unfold detectRule startsW
      have h1 : ((a :: as : List Char) == (b :: bs)) = false := by
        refine beq_eq_false_iff_ne.mpr ?_
        intro hab
        injection hab with hab1 _
        exact hcd hab1
      rw [h1, decide_eq_false hcd, decide_eq_false (Ne.symm hcd)]
      simp

/-- The registered OpenAI model names all start with `g` or `o`. -/
theorem openai_heads : ∀ kv ∈ openaiModels,
    (toLowerCase kv.1.toList).head? = some 'g' ∨
      (toLowerCase kv.1.toList).head? = some 'o' := by decide

/-- The registered Anthropic model names all start with `c`. -/
theorem anthropic_heads : ∀ kv ∈ anthropicModels,
    (toLowerCase kv.1.toList).head? = some 'c' := by decide

/-- The claim's hypothesis: some registered model name has the normalized
input as a prefix. -/
def someNameExtends (n : JSString) : Bool :=
  supportedModels.any (fun pr => pr.2.any (fun kv => startsW (toLowerCase kv.1.toList) n))

/-- The claim's description of the heuristic: the first provider in
registry iteration order containing a model name of which the normalized
input is a prefix. -/
def firstProviderWithNameExtending (n : JSString) : Option String :=
  (supportedModels.find?
    (fun pr => pr.2.any (fun kv => startsW (toLowerCase kv.1.toList) n))).map (·.1)

/-- Detection agrees with the claim's first-provider description on every
input that is a prefix of some registered name, and always lands on a
real provider there. -/
theorem detectAux_firstProvider (n : JSString) (h : someNameExtends n = true) :
    detectAux supportedModels n = firstProviderWithNameExtending n ∧
    (detectAux supportedModels n = some "openai" ∨
      detectAux supportedModels n = some "anthropic") := by
  by_cases hO : openaiModels.any (fun kv => startsW (toLowerCase kv.1.toList) n) = true
  · -- a registered OpenAI name extends the input: both sides say openai
    have hOd : openaiModels.any (fun kv => detectRule n (toLowerCase kv.1.toList)) = true := by
      obtain ⟨kv, hkv, hs⟩ := List.any_eq_true.mp hO
      exact List.any_eq_true.mpr ⟨kv, hkv, detectRule_of_startsW hs⟩
    have hdet : detectAux supportedModels n = some "openai" := by
      have hstep : detectAux supportedModels n =
          if openaiModels.any (fun kv => detectRule n (toLowerCase kv.1.toList)) then
            some "openai"
          else detectAux [("anthropic", anthropicModels)] n := rfl
      rw [hstep, hOd]
      simp
    have hfirst : firstProviderWithNameExtending n = some "openai" := by
      unfold firstProviderWithNameExtending supportedModels
      simp only [List.find?, Option.map_eq_some']
      rw [hO]
      exact ⟨("openai", openaiModels), rfl, rfl⟩
    exact ⟨by rw [hdet, hfirst], Or.inl hdet⟩
  · -- only Anthropic names extend the input
    have hA : anthropicModels.any (fun kv => startsW (toLowerCase kv.1.toList) n) = true := by
      unfold someNameExtends at h
      simp only [supportedModels, List.any_cons, List.any_nil, Bool.or_eq_true,
        Bool.or_eq_false_iff] at h
      rcases h with h | h | h
      · exact absurd h hO
      · exact h
      · exact absurd h (by simp)
    rcases hne : n with _ | ⟨c, t⟩
    · -- the empty input extends every name, contradicting the case split
      rw [hne] at hO
      exact absurd (by simp [openaiModels, startsW_nil_right]) hO
    rw [hne] at hO hA h
    obtain ⟨kv0, hkv0, hs0⟩ := List.any_eq_true.mp hA
    have hchead : c = 'c' := by
      have := startsW_head_eq hs0
      have hh := anthropic_heads kv0 hkv0
      rw [this] at hh
      simpa using hh
    subst hchead
    have hnhead : (('c' : Char) :: t).head? = some 'c' := rfl
    have hOfalse : openaiModels.any
        (fun kv => detectRule ('c' :: t) (toLowerCase kv.1.toList)) = false := by
      rw [List.any_eq_false]
      intro kv hkv
      rw [Bool.not_eq_true]
      rcases openai_heads kv hkv with hh | hh <;>
        exact detectRule_false_of_head hnhead hh (by decide)
    have hAd : anthropicModels.any
        (fun kv => detectRule ('c' :: t) (toLowerCase kv.1.toList)) = true :=
      List.any_eq_true.mpr ⟨kv0, hkv0, detectRule_of_startsW hs0⟩
    have hOfalse2 : openaiModels.any
        (fun kv => startsW (toLowerCase kv.1.toList) ('c' :: t)) = false := by
      cases hx : openaiModels.any (fun kv => startsW (toLowerCase kv.1.toList) ('c' :: t))
      · rfl
      · exact absurd hx hO
    have hdet : detectAux supportedModels ('c' :: t) = some "anthropic" := by
      have hstep : detectAux supportedModels ('c' :: t) =
          if openaiModels.any (fun kv => detectRule ('c' :: t) (toLowerCase kv.1.toList)) then
            some "openai"
          else if anthropicModels.any
              (fun kv => detectRule ('c' :: t) (toLowerCase kv.1.toList)) then
            some "anthropic"
          else none := rfl
      rw [hstep, hOfalse, hAd]
      simp
    have hfirst : firstProviderWithNameExtending ('c' :: t) = some "anthropic" := by
      unfold firstProviderWithNameExtending supportedModels
      simp only [List.find?, Option.map_eq_some']
      rw [hOfalse2, hA]
      exact ⟨("anthropic", anthropicModels), rfl, rfl⟩
    exact ⟨by rw [hdet, hfirst], Or.inr hdet⟩

theorem lookupModel_mem {ms : List (String × ModelConfig)} {model : String}
    {c : ModelConfig} (h : lookupModel ms model = some c) : ∃ kv ∈ ms, kv.2 = c := by
  induction ms with
  | nil => simp [lookupModel] at h
  | cons kv rest ih =>
    unfold lookupModel at h
    split at h
    · simp only [Option.some.injEq] at h
      exact ⟨kv, by simp, h⟩
    · obtain ⟨kv2, hm, he⟩ := ih h
      exact ⟨kv2, by simp [hm], he⟩

/-- Every registry-resolved model has provider `openai` or `anthropic`. -/
theorem getModelConfig_provider {model : String} {mc : ModelConfig}
    (h : getModelConfig model = some mc) :
    mc.provider = "openai" ∨ mc.provider = "anthropic" := by
  unfold getModelConfig at h
  simp only [supportedModels, getModelConfigAux] at h
  rcases h1 : lookupModel openaiModels model with _ | c1 <;> rw [h1] at h
  · rcases h2 : lookupModel anthropicModels model with _ | c2 <;> rw [h2] at h
    · simp at h
    · simp only [Option.some.injEq] at h
      subst h
      obtain ⟨kv, hm, he⟩ := lookupModel_mem h2
      have : ∀ kv ∈ anthropicModels, kv.2.provider = "anthropic" := by decide
      exact Or.inr (he ▸ this kv hm)
  · simp only [Option.some.injEq] at h
    subst h
    obtain ⟨kv, hm, he⟩ := lookupModel_mem h1
    have : ∀ kv ∈ openaiModels, kv.2.provider = "openai" := by decide
    exact Or.inl (he ▸ this kv hm)

/-- When detection lands on a real provider, `countTokens` never takes the
warned GPT-4 fallback. -/
theorem countTokens_warned_false {model : String}
    (hd : detectProviderFromSupportedModels model = some "openai" ∨
      detectProviderFromSupportedModels model = some "anthropic") :
    ∀ (env : TokEnv) (text : JSString),
      (countTokens env text model).warnedUnknown = false := by
  intro env text
  unfold countTokens
  rcases hg : getModelConfig model with _ | mc
  · unfold countTokensDetect
    rcases hd with hd | hd
    · simp [hd]
    · have hno : ¬detectProviderFromSupportedModels model = some "openai" := by
        rw [hd]; simp
      simp [hno, hd]
  · rcases getModelConfig_provider hg with hp | hp
    · simp [hp]
    · have h1 : ¬mc.provider = "openai" := by rw [hp]; decide
      simp [h1, hp]

/-- C10: for every model string whose normalized form is a prefix of at
least one registered model name (including the empty string), heuristic
detection returns the first provider in registry iteration order
containing such a name, and `countTokens` never takes the unknown-model
warning fallback for these inputs. -/
theorem claim_C10 (model : String)
    (h : someNameExtends (normalize model.toList) = true) :
    detectProviderFromSupportedModels model =
      firstProviderWithNameExtending (normalize model.toList) ∧
    (firstProviderWithNameExtending (normalize model.toList)).isSome = true ∧
    ∀ (env : TokEnv) (text : JSString),
      (countTokens env text model).warnedUnknown = false := by
  have hcore := detectAux_firstProvider (normalize model.toList) h
  have hdef : detectProviderFromSupportedModels model =
      detectAux supportedModels (normalize model.toList) := rfl
  refine ⟨by rw [hdef, hcore.1], ?_, ?_⟩
  · rw [← hcore.1]
    rcases hcore.2 with hd | hd <;> rw [hd] <;> rfl
  · exact countTokens_warned_false (by rw [hdef]; exact hcore.2)

/-- C10 witness: the empty model string and the single letter `g` are
detected as the first provider and silently tokenized. -/
theorem claim_C10_witness :
    detectProviderFromSupportedModels "g" = some "openai" ∧
    detectProviderFromSupportedModels "" = some "openai" ∧
    (countTokens probeTokEnv "hi".toList "g").warnedUnknown = false := by
  have h1 := claim_C10 "g" (by decide)
  have h2 := claim_C10 "" (by decide)
  refine ⟨?_, ?_, h1.2.2 probeTokEnv "hi".toList⟩
  · rw [h1.1]; decide
  · rw [h2.1]; decide

/-! ## Claim C4: pass/fail decisions of the check runner -/

/-- Modelled from the spec: a registry entry whose per-1k price makes 500
tokens cost exactly $0.02 (the combined-limit scenario of the spec); the
zero context window plays no role for object limits. -/
def comboRegistry : Registry := fun m =>
  if m = "combo-model" then some ⟨0, 1/25⟩ else none

/-- The environment of the combined-limit scenario: one file, 500 tokens. -/
def comboEnv : RunEnv :=
  { registry := comboRegistry
    getFilesContent := fun _ => .ok [⟨"file1.md", "hello".toList⟩]
    countTokensFn := fun _ _ => .ok 500 }

/-- The combined-limit check: `limit: { tokens: 1000, cost: 0.01 }`. -/
def comboCheck : TokenCheck :=
  { path := .single "file1.md"
    name := some "combo"
    model := some "combo-model"
    limit := some (.obj (some (.num (.finite 1000))) (some (.num (.finite (1/100))))) }

/-- C4: with a configured limit, `passed`/`costPassed` are exactly the
`<=` comparisons against the parsed limits; with no limit both stay
undefined; and in the combined scenario (500 tokens <= 1000 but $0.02 >
$0.01) the check has `passed = true`, `costPassed = false` and the run is
failed. -/
theorem claim_C4 :
    (∀ (env : RunEnv) (check : TokenCheck) (fcs : List FileContent) (tc : ℕ),
      env.getFilesContent check.path = .ok fcs → fcs ≠ [] →
      (∀ s m, env.countTokensFn s m = .ok tc) →
      check.limit = none →
      (runCheck env check).passed = none ∧ (runCheck env check).costPassed = none ∧
        (runCheck env check).missed = false) ∧
    (∀ (env : RunEnv) (check : TokenCheck) (fcs : List FileContent) (tc : ℕ)
        (l : LimitExpr) (pl : ParsedLimit),
      env.getFilesContent check.path = .ok fcs → fcs ≠ [] →
      (∀ s m, env.countTokensFn s m = .ok tc) →
      check.limit = some l →
      parseLimit env.registry l "undefined" = .ok pl →
      (runCheck env check).tokenLimit = pl.tokens ∧
      (runCheck env check).costLimit = pl.cost ∧
      (runCheck env check).passed = pl.tokens.map (fun tl => decide (tc ≤ tl)) ∧
      (runCheck env check).costPassed = pl.cost.map
        (fun cl => decide (calculateCost env.registry tc (check.model.getD "gpt-4") ≤ cl))) ∧
    ((runCheck comboEnv comboCheck).passed = some true ∧
      (runCheck comboEnv comboCheck).costPassed = some false ∧
      (runChecks comboEnv [comboCheck] none).failed = true) := by
  have hnolimit : ∀ (env : RunEnv) (check : TokenCheck) (fcs : List FileContent) (tc : ℕ),
      env.getFilesContent check.path = .ok fcs → fcs ≠ [] →
      (∀ s m, env.countTokensFn s m = .ok tc) →
      check.limit = none →
      (runCheck env check).passed = none ∧ (runCheck env check).costPassed = none ∧
        (runCheck env check).missed = false := by
    intro env check fcs tc hf hne ht hl
    rcases fcs with _ | ⟨f0, fs⟩
    · exact absurd rfl hne
    simp [runCheck, hf, ht, hl]
  have hlimit : ∀ (env : RunEnv) (check : TokenCheck) (fcs : List FileContent) (tc : ℕ)
      (l : LimitExpr) (pl : ParsedLimit),
      env.getFilesContent check.path = .ok fcs → fcs ≠ [] →
      (∀ s m, env.countTokensFn s m = .ok tc) →
      check.limit = some l →
      parseLimit env.registry l "undefined" = .ok pl →
      (runCheck env check).tokenLimit = pl.tokens ∧
      (runCheck env check).costLimit = pl.cost ∧
      (runCheck env check).passed = pl.tokens.map (fun tl => decide (tc ≤ tl)) ∧
      (runCheck env check).costPassed = pl.cost.map
        (fun cl => decide (calculateCost env.registry tc (check.model.getD "gpt-4") ≤ cl)) := by
    intro env check fcs tc l pl hf hne ht hl hpl
    rcases fcs with _ | ⟨f0, fs⟩
    · exact absurd rfl hne
    simp [runCheck, hf, ht, hl, hpl]
  refine ⟨hnolimit, hlimit, ?_⟩
  have hpl : parseLimit comboRegistry
      (.obj (some (.num (.finite 1000))) (some (.num (.finite (1/100))))) "undefined" =
      .ok ⟨some 1000, some (1/100)⟩ := by
    have h1 : parseTokenLimit comboRegistry (.num (.finite 1000)) "undefined" = .ok 1000 := by
      simp only [parseTokenLimit]
      rw [if_neg (by norm_num)]
      norm_num
    have h2 : parseCostLimit (.num (.finite (1/100))) = .ok (1/100) := by
      simp only [parseCostLimit]
      rw [if_neg (by norm_num)]
    have heq : (1/100 : ℚ) = 100⁻¹ := by norm_num
    have h2' := heq ▸ h2
    simp [parseLimit, h1, h2, h2']
    rfl
  have hcost : calculateCost comboEnv.registry ((500 : ℕ) : ℚ)
      (comboCheck.model.getD "gpt-4") = 1/50 := by
    have hreg : comboEnv.registry (comboCheck.model.getD "gpt-4") = some ⟨0, 1/25⟩ := rfl
    simp only [calculateCost, hreg]
    rw [if_neg (by norm_num)]
    norm_num
  have hrun := hlimit comboEnv comboCheck [⟨"file1.md", "hello".toList⟩] 500
    (.obj (some (.num (.finite 1000))) (some (.num (.finite (1/100)))))
    ⟨some 1000, some (1/100)⟩ rfl (by simp) (fun s m => rfl) rfl hpl
  have hpassed : (runCheck comboEnv comboCheck).passed = some true := by
    rw [hrun.2.2.1]
    simp only [Option.map_some']
    decide
  have hcostPassed : (runCheck comboEnv comboCheck).costPassed = some false := by
    rw [hrun.2.2.2]
    simp only [Option.map_some', hcost]
    rw [decide_eq_false (by norm_num)]
  refine ⟨hpassed, hcostPassed, ?_⟩
  simp [runChecks, checkFailed, hcostPassed]

/-! ## Claim C5: missed results and sibling isolation -/

/-- C5: zero matched files give a `missed` result with `tokenCount = 0`
independently of the token-counting oracle (the first clause holds for
*every* `countTokensFn`, so tokenization is never consulted); any error
from file retrieval or token counting becomes a `missed` result carrying
the error's message; and the result list is exactly the per-check map, so
every configured check yields its own entry. -/
theorem claim_C5 :
    (∀ (env : RunEnv) (check : TokenCheck), env.getFilesContent check.path = .ok [] →
      runCheck env check = missedResult check none ∧
      (missedResult check none).missed = true ∧
      (missedResult check none).tokenCount = 0) ∧
    (∀ (env : RunEnv) (check : TokenCheck) (e : String),
      env.getFilesContent check.path = .error e →
      runCheck env check = missedResult check (some e) ∧
      (missedResult check (some e)).message = some e ∧
      (missedResult check (some e)).missed = true) ∧
    (∀ (env : RunEnv) (check : TokenCheck) (fcs : List FileContent) (e : String),
      env.getFilesContent check.path = .ok fcs → fcs ≠ [] →
      (∀ s m, env.countTokensFn s m = .error e) →
      runCheck env check = missedResult check (some e)) ∧
    (∀ (env : RunEnv) (config : List TokenCheck) (p : Option String),
      (runChecks env config p).checks = config.map (runCheck env) ∧
      (runChecks env config p).checks.length = config.length) := by
  refine ⟨?_, ?_, ?_, ?_⟩
  · intro env check hf
    refine ⟨?_, rfl, rfl⟩
    simp [runCheck, hf]
  · intro env check e hf
    refine ⟨?_, rfl, rfl⟩
    simp [runCheck, hf]
  · intro env check fcs e hf hne ht
    rcases fcs with _ | ⟨f0, fs⟩
    · exact absurd rfl hne
    simp [runCheck, hf, ht]
  · intro env config p
    constructor
    · rfl
    · simp [runChecks]

/-- C5 witness: a concrete empty-glob check and a concrete failing
retrieval both yield missed results. -/
theorem claim_C5_witness :
    runCheck ⟨emptyReg, fun _ => .ok [], fun _ _ => .ok 5⟩
        ⟨.single "missing-*.md", some "check", none, none⟩ =
      missedResult ⟨.single "missing-*.md", some "check", none, none⟩ none ∧
    runCheck ⟨emptyReg, fun _ => .error "File read error", fun _ _ => .ok 5⟩
        ⟨.single "file1.md", some "check", none, none⟩ =
      missedResult ⟨.single "file1.md", some "check", none, none⟩ (some "File read error") ∧
    (runChecks ⟨emptyReg, fun _ => .ok [], fun _ _ => .ok 5⟩
        [⟨.single "missing-*.md", some "check", none, none⟩] none).checks.length = 1 :=
  ⟨(claim_C5.1 ⟨emptyReg, fun _ => .ok [], fun _ _ => .ok 5⟩
      ⟨.single "missing-*.md", some "check", none, none⟩ rfl).1,
   (claim_C5.2.1 ⟨emptyReg, fun _ => .error "File read error", fun _ _ => .ok 5⟩
      ⟨.single "file1.md", some "check", none, none⟩ "File read error" rfl).1,
   (claim_C5.2.2.2 ⟨emptyReg, fun _ => .ok [], fun _ _ => .ok 5⟩
      [⟨.single "missing-*.md", some "check", none, none⟩] none).2⟩

/-- C4 witness: the general clauses at the combined-limit scenario. -/
theorem claim_C4_witness :
    (runCheck comboEnv comboCheck).passed = some true ∧
    (runCheck comboEnv comboCheck).costPassed = some false ∧
    (runChecks comboEnv [comboCheck] none).failed = true :=
  claim_C4.2.2

end TokenLimit
